import Mathlib

/-!
# Verification of the BasicShell core (`src/shell.c`)

A shallow embedding of the shell core in `shell.c`:

* the built-in registry `cmd_table` and its exact-match `lookup` (lines 56-107);
* the built-in handlers `cmd_help`, `cmd_cd`, `cmd_pwd` (lines 68-99), with the
  OS calls `chdir` and `getcwd` abstracted as oracles;
* the PATH resolver `exec_with_pathres` (lines 142-173), with `execv` abstracted
  as an oracle returning success or an errno class;
* the pipeline orchestrator `piped_exec` and stage launcher `program_exec`
  (lines 176-339), embedded as a file-descriptor-table simulation: fork copies
  the descriptor table, `dup2`/`close`/`open`/`creat` act on it, and each
  launched stage records its table at `execv` time together with the
  orchestrator's table at launch time;
* the terminal-foreground handoff of `program_exec`'s parent branch
  (lines 182-207), embedded as a list of foreground operations;
* the `main` read loop's dispatch (lines 355-379).

Token sequences are `List String`, following the external tokenizer contract
(an ordered, indexable sequence; `token_at i` is `none` for `i ≥ length`).
Machine `int` file descriptors are `Int` so that the `-1` sentinel used by the
source is represented as in the code.
-/

set_option autoImplicit false

namespace BasicShell

/-! ## Built-in registry (`cmd_table`, `lookup`, lines 50-107) -/

/-- Table `cmd_table` (lines 56-61): each entry is the command name paired with its
one-line description.  The handler function pointers are modelled separately
(`builtinStdout` below dispatches on the index, as `main` does). -/
def cmd_table : List (String × String) :=
  [("?", "show this help menu"),
   ("exit", "exit the command shell"),
   ("cd", "changes the working directory to the given directory"),
   ("pwd", "prints the current working directory to standard output")]

/-- The loop body of `lookup` (lines 102-107): scan the table from index `i`,
returning the index of the first exact `strcmp` match, `-1` otherwise.
A `NULL` command pointer (`none`) never matches, because of the `cmd &&`
guard in the source. -/
def lookupFrom : Nat → List (String × String) → Option String → Int
  | _, _, none => -1
  | _, [], some _ => -1
  | i, e :: rest, some c => if e.1 = c then Int.ofNat i else lookupFrom (i + 1) rest (some c)

/-- Function `lookup` (lines 102-107). -/
def lookup (cmd : Option String) : Int :=
  lookupFrom 0 cmd_table cmd

/-- Function `cmd_help` (lines 68-72): prints one `"%s - %s\n"` line per table entry. -/
def cmd_help_output : String :=
  String.join (cmd_table.map (fun e => e.1 ++ " - " ++ e.2 ++ "\n"))

/-! ## `cmd_cd` and `cmd_pwd` (lines 80-99)

`chdir` is abstracted as an oracle `String → String → Option String` taking the
current working directory and the target path and returning the new working
directory on success (`chdir(path) != -1`) and `none` on failure; `strerror` is
the error description for the failure.  `getcwd` is abstracted as an
`Option String` (`none` models a `NULL` return). -/

/-- Result of one `cmd_cd` call: the working directory afterwards, the text the
handler printed to standard output, and its return value. -/
structure CdResult where
  cwd : String
  out : String
  ret : Int
  deriving DecidableEq, Repr

/-- Function `cmd_cd` (lines 80-87): on `chdir` success return 1 and print nothing; on
failure print `"%s: %s.\n"` with the path and `strerror(errno)`, return 0, and
leave the working directory unchanged. -/
def cmd_cd (chdir : String → String → Option String) (strerror : String)
    (cwd path : String) : CdResult :=
  match chdir cwd path with
  | some newCwd => { cwd := newCwd, out := "", ret := 1 }
  | none => { cwd := cwd, out := path ++ ": " ++ strerror ++ ".\n", ret := 0 }

/-- Function `cmd_pwd` (lines 90-99): print `getcwd` plus a newline and return 1, or
print `"error: %s.\n"` and return 0 when `getcwd` fails. -/
def cmd_pwd (getcwdRes : Option String) (strerror : String) : String × Int :=
  match getcwdRes with
  | some p => (p ++ "\n", 1)
  | none => ("error: " ++ strerror ++ ".\n", 0)

/-! ## PATH resolution (`exec_with_pathres`, lines 142-173)

`execv` is abstracted as an oracle from the candidate path to `none` (success:
the process image is replaced and the call never returns) or the errno class of
the failure (`enoent` is `ENOENT`; `other` is any other errno). -/

/-- Errno classes distinguished by `exec_with_pathres`. -/
inductive ExecErr where
  | enoent
  | other
  deriving DecidableEq, Repr

/-- The `execv` oracle: `none` means the call succeeded (and did not return). -/
abbrev ExecOracle := String → Option ExecErr

/-- How a call to `exec_with_pathres` leaves the calling process.  There is no
"returns to caller" constructor: on success the image is replaced, otherwise
the process exits.  This is the "divergent operation" of the design. -/
inductive PathresOutcome where
  | execed (path : String)
  | exited (code : Nat) (msg : String)
  deriving DecidableEq, Repr

/-- Message of `command_not_found` (lines 341-343). -/
def cnfMsg (cmd : String) : String := cmd ++ ": command not found.\n"

/-- Split a character list at every occurrence of `sep`, keeping empty
segments; the accumulator holds the current segment reversed. -/
def splitSepAux (sep : Char) : List Char → List Char → List (List Char)
  | [], cur => [cur.reverse]
  | c :: cs, cur =>
    if c = sep then cur.reverse :: splitSepAux sep cs []
    else splitSepAux sep cs (c :: cur)

/-- The `strtok(envbuf, ":")` walk (lines 154-166): `strtok` yields the maximal
nonempty substrings between `:` delimiters, in order (empty segments are
skipped, never returned). -/
def pathEntries (PATH : String) : List String :=
  ((splitSepAux ':' PATH.data []).filter (fun l => l ≠ [])).map String.mk

/-- The `while (p)` loop of `exec_with_pathres` (lines 156-166): for each PATH
entry `d` try `execv` on `d ++ "/" ++ cmd`; an `ENOENT` failure moves on to the
next entry, any other failure breaks out of the loop, and after the loop the
process prints `command_not_found` and exits with `EXIT_FAILURE` (1). -/
def tryPathEntries (execv : ExecOracle) (cmd : String) : List String → PathresOutcome
  | [] => .exited 1 (cnfMsg cmd)
  | d :: rest =>
    match execv (d ++ "/" ++ cmd) with
    | none => .execed (d ++ "/" ++ cmd)
    | some .enoent => tryPathEntries execv cmd rest
    | some .other => .exited 1 (cnfMsg cmd)

/-- Function `exec_with_pathres` (lines 142-173): first `execv(args[0])` literally; only
an `ENOENT` failure starts the PATH walk; any other failure of the literal
attempt falls through to `command_not_found` and `exit(EXIT_FAILURE)`. -/
def exec_with_pathres (execv : ExecOracle) (PATH cmd : String) : PathresOutcome :=
  match execv cmd with
  | none => .execed cmd
  | some .enoent => tryPathEntries execv cmd (pathEntries PATH)
  | some .other => .exited 1 (cnfMsg cmd)

/-- The full candidate sequence attempted by `exec_with_pathres`: the literal
`argv[0]` first, then `d ++ "/" ++ argv[0]` for each PATH entry in order. -/
def candidates (PATH cmd : String) : List String :=
  cmd :: (pathEntries PATH).map (fun d => d ++ "/" ++ cmd)

/-- One uniform pass over a list of candidate paths, equivalent to
`exec_with_pathres` on `candidates PATH cmd` (proved below). -/
def tryCands (execv : ExecOracle) (cmd : String) : List String → PathresOutcome
  | [] => .exited 1 (cnfMsg cmd)
  | c :: rest =>
    match execv c with
    | none => .execed c
    | some .enoent => tryCands execv cmd rest
    | some .other => .exited 1 (cnfMsg cmd)

lemma tryPathEntries_eq_tryCands (execv : ExecOracle) (cmd : String) (ds : List String) :
    tryPathEntries execv cmd ds = tryCands execv cmd (ds.map (fun d => d ++ "/" ++ cmd)) := by
  induction ds with
  | nil => rfl
  | cons d rest ih =>
    simp only [tryPathEntries, tryCands, List.map_cons]
    cases execv (d ++ "/" ++ cmd) with
    | none => rfl
    | some e => cases e <;> simp [ih]

lemma exec_with_pathres_eq_tryCands (execv : ExecOracle) (PATH cmd : String) :
    exec_with_pathres execv PATH cmd = tryCands execv cmd (candidates PATH cmd) := by
  simp only [exec_with_pathres, candidates, tryCands]
  cases execv cmd with
  | none => rfl
  | some e => cases e <;> simp [tryPathEntries_eq_tryCands]

lemma tryCands_execed_iff (execv : ExecOracle) (cmd : String) (cs : List String) (p : String) :
    tryCands execv cmd cs = .execed p ↔
      ∃ pre post, cs = pre ++ p :: post ∧ (∀ q ∈ pre, execv q = some .enoent) ∧
        execv p = none := by
  induction cs with
  | nil =>
    simp only [tryCands]
    constructor
    · intro h; cases h
    · rintro ⟨pre, post, h, -, -⟩; cases pre <;> simp at h
  | cons c rest ih =>
    simp only [tryCands]
    cases hc : execv c with
    | none =>
      constructor
      · intro h
        cases h
        exact ⟨[], rest, rfl, by simp, hc⟩
      · rintro ⟨pre, post, hcs, hpre, hp⟩
        cases pre with
        | nil =>
          simp only [List.nil_append, List.cons.injEq] at hcs
          rw [hcs.1]
        | cons a pre =>
          simp only [List.cons_append, List.cons.injEq] at hcs
          have := hpre a (by simp)
          rw [← hcs.1] at this
          rw [hc] at this
          cases this
    | some e =>
      cases e with
      | enoent =>
        rw [ih]
        constructor
        · rintro ⟨pre, post, hcs, hpre, hp⟩
          refine ⟨c :: pre, post, by rw [hcs, List.cons_append], ?_, hp⟩
          intro q hq
          rcases List.mem_cons.mp hq with h | h
          · rw [h]; exact hc
          · exact hpre q h
        · rintro ⟨pre, post, hcs, hpre, hp⟩
          cases pre with
          | nil =>
            simp only [List.nil_append, List.cons.injEq] at hcs
            rw [← hcs.1] at hp
            rw [hc] at hp
            cases hp
          | cons a pre =>
            simp only [List.cons_append, List.cons.injEq] at hcs
            exact ⟨pre, post, hcs.2, fun q hq => hpre q (by simp [hq]), hp⟩
      | other =>
        constructor
        · intro h; cases h
        · rintro ⟨pre, post, hcs, hpre, hp⟩
          cases pre with
          | nil =>
            simp only [List.nil_append, List.cons.injEq] at hcs
            rw [← hcs.1] at hp
            rw [hc] at hp
            cases hp
          | cons a pre =>
            simp only [List.cons_append, List.cons.injEq] at hcs
            have := hpre a (by simp)
            rw [← hcs.1] at this
            rw [hc] at this
            cases this

lemma tryCands_exited_iff (execv : ExecOracle) (cmd : String) (cs : List String) :
    tryCands execv cmd cs = .exited 1 (cnfMsg cmd) ↔
      (∀ q ∈ cs, execv q = some .enoent) ∨
      ∃ pre q post, cs = pre ++ q :: post ∧ (∀ r ∈ pre, execv r = some .enoent) ∧
        execv q = some .other := by
  induction cs with
  | nil =>
    simp only [tryCands]
    constructor
    · intro _; left; intro q hq; cases hq
    · intro _; trivial
  | cons c rest ih =>
    simp only [tryCands]
    cases hc : execv c with
    | none =>
      constructor
      · intro h; cases h
      · rintro (hall | ⟨pre, q, post, hcs, hpre, hq⟩)
        · have := hall c (by simp)
          rw [hc] at this; cases this
        · cases pre with
          | nil =>
            simp only [List.nil_append, List.cons.injEq] at hcs
            rw [← hcs.1] at hq; rw [hc] at hq; cases hq
          | cons a pre =>
            simp only [List.cons_append, List.cons.injEq] at hcs
            have := hpre a (by simp)
            rw [← hcs.1] at this; rw [hc] at this; cases this
    | some e =>
      cases e with
      | enoent =>
        rw [ih]
        constructor
        · rintro (hall | ⟨pre, q, post, hcs, hpre, hq⟩)
          · left
            intro q hq
            rcases List.mem_cons.mp hq with h | h
            · rw [h]; exact hc
            · exact hall q h
          · right
            refine ⟨c :: pre, q, post, by rw [hcs, List.cons_append], ?_, hq⟩
            intro r hr
            rcases List.mem_cons.mp hr with h | h
            · rw [h]; exact hc
            · exact hpre r h
        · rintro (hall | ⟨pre, q, post, hcs, hpre, hq⟩)
          · left; intro q hq; exact hall q (by simp [hq])
          · cases pre with
            | nil =>
              simp only [List.nil_append, List.cons.injEq] at hcs
              rw [← hcs.1] at hq; rw [hc] at hq; cases hq
            | cons a pre =>
              simp only [List.cons_append, List.cons.injEq] at hcs
              right
              exact ⟨pre, q, post, hcs.2, fun r hr => hpre r (by simp [hr]), hq⟩
      | other =>
        constructor
        · intro _
          right
          exact ⟨[], c, rest, rfl, by simp, hc⟩
        · intro _; rfl

/-! ## File-descriptor model for `program_exec` / `piped_exec` (lines 176-339)

A process's descriptor table is an association list from the `int` descriptor
number to the object it designates.  `fork` copies the table; `dup2`, `close`,
`open` and `creat` act on it.  Pipes are numbered in creation order; the two
ends of pipe `p` are the objects `pipeRead p` and `pipeWrite p`.  The
simulation assumes `fork` and `pipe` succeed (their failure branches only
print and return) and gives out fresh descriptor numbers from a watermark
counter, starting at 3 with 0/1/2 taken, which matches the lowest-free rule
for the descriptors this program actually allocates. -/

/-- What an open file descriptor designates. -/
inductive AccessMode where
  | readOnly
  | writeOnly
  | readWrite
  deriving BEq, DecidableEq, Repr

/-- The object behind a descriptor.  For a named file, `trunc` records whether
the open created/truncated it. -/
inductive FdTarget where
  | stdin
  | stdout
  | stderr
  | pipeRead (p : Nat)
  | pipeWrite (p : Nat)
  | file (name : String) (mode : AccessMode) (trunc : Bool)
  deriving BEq, DecidableEq, Repr

/-- A process's descriptor table. -/
abbrev FdTable := List (Int × FdTarget)

/-- Look up descriptor `fd` in a table. -/
def lookupFd : FdTable → Int → Option FdTarget
  | [], _ => none
  | e :: t, fd => if e.1 = fd then some e.2 else lookupFd t fd

/-- Remove every binding of descriptor `fd`. -/
def removeFd : FdTable → Int → FdTable
  | [], _ => []
  | e :: t, fd => if e.1 = fd then removeFd t fd else e :: removeFd t fd

/-- Bind descriptor `fd` to `v`, dropping any previous binding. -/
def setFd (t : FdTable) (fd : Int) (v : FdTarget) : FdTable :=
  (fd, v) :: removeFd t fd

/-- Model of `close(fd)`. -/
def closeFd (t : FdTable) (fd : Int) : FdTable :=
  removeFd t fd

/-- Model of `dup2(oldfd, newfd)`: `newfd` now designates whatever `oldfd` does. -/
def dup2fd (t : FdTable) (oldfd newfd : Int) : FdTable :=
  match lookupFd t oldfd with
  | some v => setFd t newfd v
  | none => t

/-- Number of descriptors in `t` designating object `v`. -/
def countOpen : FdTable → FdTarget → Nat
  | [], _ => 0
  | e :: t, v => (if e.2 = v then 1 else 0) + countOpen t v

lemma lookupFd_setFd_self (t : FdTable) (fd : Int) (v : FdTarget) :
    lookupFd (setFd t fd v) fd = some v := by
  simp [lookupFd, setFd]

lemma lookupFd_removeFd_ne (t : FdTable) (fd fd' : Int) (h : fd' ≠ fd) :
    lookupFd (removeFd t fd) fd' = lookupFd t fd' := by
  induction t with
  | nil => rfl
  | cons e t ih =>
    have hne : fd ≠ fd' := fun hh => h hh.symm
    by_cases he : e.1 = fd
    · simp [removeFd, lookupFd, he, hne, ih]
    · by_cases hb : e.1 = fd'
      · simp [removeFd, lookupFd, he, hb, h]
      · simp [removeFd, lookupFd, he, hb, ih]

lemma lookupFd_setFd_ne (t : FdTable) (fd fd' : Int) (v : FdTarget) (h : fd' ≠ fd) :
    lookupFd (setFd t fd v) fd' = lookupFd t fd' := by
  have hne : fd ≠ fd' := fun hh => h hh.symm
  simp [setFd, lookupFd, hne, lookupFd_removeFd_ne t fd fd' h]

lemma lookupFd_closeFd_ne (t : FdTable) (fd fd' : Int) (h : fd' ≠ fd) :
    lookupFd (closeFd t fd) fd' = lookupFd t fd' := by
  simp [closeFd, lookupFd_removeFd_ne t fd fd' h]

/-- One launched pipeline stage: its argument vector, its descriptor table at
`execv` time (`execed = true`) or at its premature `exit(EXIT_FAILURE)`
(`execed = false`, the failed-redirect branch), the orchestrator's descriptor
table at the moment the child was started, and the files the child
created/truncated. -/
structure StageRec where
  argv : List String
  table : FdTable
  parentTable : FdTable
  execed : Bool
  createdFiles : List String
  deriving BEq, DecidableEq, Repr, Inhabited

/-- Orchestrator state while `piped_exec` scans the token sequence. -/
structure Sim where
  parent : FdTable
  nextFd : Int
  nextPipe : Nat
  stages : List StageRec
  input_redirect : Bool
  output_redirect : Bool
  inbuf : String
  outbuf : String
  deriving BEq, DecidableEq, Repr

/-- The child branch of `program_exec` (lines 209-261), parametrized by a
`fileExists` oracle for `open(inbuf, O_RDONLY)`.  `fork` copies the parent
table; if `pipein != -1` the pipe descriptors are duplicated onto stdin and
stdout (the original descriptors are NOT closed: the source has no `close` for
them); then the input redirect overrides stdin (fd 0) and the output redirect
overrides stdout (fd 1).  A failed `open` of the input file makes the child
report the error and `exit(EXIT_FAILURE)` before reaching `exec_with_pathres`.
`creat(outbuf, mode)` opens write-only with create/truncate — per POSIX,
`creat(path, mode)` is `open(path, O_WRONLY | O_CREAT | O_TRUNC, mode)`; the
source passes `(O_RDWR | O_CREAT | O_TRUNC)` as the `mode` (permissions)
argument, which does not affect the access mode of the descriptor. -/
def childProcess (fileExists : String → Bool) (parent : FdTable) (nextFd : Int)
    (pipein pipeout : Int) (inRe : Bool) (inbuf : String)
    (outRe : Bool) (outbuf : String) (argv : List String) : StageRec :=
  let t1 := if pipein ≠ -1 then dup2fd (dup2fd parent pipein 0) pipeout 1 else parent
  if inRe && !(fileExists inbuf) then
    { argv := argv, table := t1, parentTable := parent, execed := false, createdFiles := [] }
  else
    let t2 := if inRe then
        closeFd (dup2fd (setFd t1 nextFd (.file inbuf .readOnly false)) nextFd 0) nextFd
      else t1
    let t3 := if outRe then
        closeFd (dup2fd (setFd t2 nextFd (.file outbuf .writeOnly true)) nextFd 1) nextFd
      else t2
    { argv := argv, table := t3, parentTable := parent, execed := true,
      createdFiles := if outRe then [outbuf] else [] }

/-- Function `program_exec` (lines 176-265) as seen by the descriptor model: fork a
child (recorded with its table at exec time), wait for it.  The parent's own
descriptor table is not changed by `program_exec`. -/
def program_exec_sim (fileExists : String → Bool) (st : Sim) (argv : List String)
    (pipein pipeout : Int) : Sim :=
  let child := childProcess fileExists st.parent st.nextFd pipein pipeout
    st.input_redirect st.inbuf st.output_redirect st.outbuf argv
  { st with stages := st.stages ++ [child] }

/-- The argument vector `execv` actually sees: the slots of the C `args` array
up to the first `NULL` terminator. -/
def argvOf (slots : List (Option String)) : List String :=
  (slots.takeWhile Option.isSome).filterMap id

/-- Statement `args[j - 2] = NULL` (lines 285, 315, 319): null out the second-to-last
slot appended so far. -/
def nullPrev (slots : List (Option String)) : List (Option String) :=
  slots.set (slots.length - 2) none

/-- The `<` branch of the scanner (lines 314-317): `strcpy(inbuf, curtok)` with
no length check, then set the flag. -/
def handleInRedirect (st : Sim) (curtok : String) : Sim :=
  { st with inbuf := curtok, input_redirect := true }

/-- The `>` branch of the scanner (lines 318-321): `strcpy(outbuf, curtok)`
with no length check, then set the flag. -/
def handleOutRedirect (st : Sim) (curtok : String) : Sim :=
  { st with outbuf := curtok, output_redirect := true }

/-- The scanner loop of `piped_exec` (lines 278-338), one recursive step per
token, carrying the C locals: the `args` slots built so far for the current
stage, `prevtok`, `prevpipe` and `curpipe` (descriptor pairs, `-1` = none).
At a `|` boundary a new pipe is created, the finished stage is launched
(reading from stdin for the first stage, from the previous pipe's read end
otherwise, writing to the new pipe's write end), the previous pipe's two ends
are closed in the orchestrator, the redirect flags are cleared, and scanning
continues.  After the last token the final stage is launched reading from
`curpipe[PIPE_READ]` and writing to stdout, then the last pipe's ends are
closed. -/
def pipedLoop (fileExists : String → Bool) :
    List String → List (Option String) → String → Int × Int → Int × Int → Sim → Sim
  | [], slots, _prevtok, prevpipe, curpipe, st =>
    let st := program_exec_sim fileExists st (argvOf slots) curpipe.1 1
    if prevpipe.1 ≠ -1 then
      { st with parent := closeFd (closeFd st.parent prevpipe.1) prevpipe.2 }
    else st
  | curtok :: rest, slots, prevtok, prevpipe, curpipe, st =>
    let slots := slots ++ [some curtok]
    if prevtok = "|" then
      let slots := nullPrev slots
      let newpipe : Int × Int := (st.nextFd, st.nextFd + 1)
      let st := { st with
        parent := setFd (setFd st.parent newpipe.1 (.pipeRead st.nextPipe)) newpipe.2
          (.pipeWrite st.nextPipe),
        nextFd := st.nextFd + 2,
        nextPipe := st.nextPipe + 1 }
      let st := if prevpipe.1 = -1 then
          program_exec_sim fileExists st (argvOf slots) 0 newpipe.2
        else
          program_exec_sim fileExists st (argvOf slots) prevpipe.1 newpipe.2
      let st := if prevpipe.1 ≠ -1 then
          { st with parent := closeFd (closeFd st.parent prevpipe.1) prevpipe.2 }
        else st
      let st := { st with input_redirect := false, output_redirect := false }
      pipedLoop fileExists rest [some curtok] curtok newpipe newpipe st
    else if prevtok = "<" then
      pipedLoop fileExists rest (nullPrev slots) curtok prevpipe curpipe
        (handleInRedirect st curtok)
    else if prevtok = ">" then
      pipedLoop fileExists rest (nullPrev slots) curtok prevpipe curpipe
        (handleOutRedirect st curtok)
    else
      pipedLoop fileExists rest slots curtok prevpipe curpipe st

/-- The descriptor table a process starts with. -/
def initialFdTable : FdTable := [(0, .stdin), (1, .stdout), (2, .stderr)]

/-- Orchestrator state at entry to `piped_exec`: `main` (lines 363-364) has
cleared both redirect flags before the call. -/
def initSim : Sim :=
  { parent := initialFdTable, nextFd := 3, nextPipe := 0, stages := [],
    input_redirect := false, output_redirect := false, inbuf := "", outbuf := "" }

/-- Function `piped_exec` (lines 268-339).  `main` only calls it on a nonempty token
sequence; on an empty one no stage is launched here. -/
def piped_exec_sim (fileExists : String → Bool) (tokens : List String) : Sim :=
  match tokens with
  | [] => initSim
  | t0 :: rest => pipedLoop fileExists rest [some t0] t0 (-1, -1) (-1, -1) initSim

/-- The two-stage pipeline of the spec's concrete scenario. -/
def echoWcSim : Sim := piped_exec_sim (fun _ => true) ["echo", "hi", "|", "wc", "-c"]

/-! ## The `main` read loop (lines 345-382) -/

/-- What `main` does with one tokenized input line. -/
inductive LineAction where
  | builtin (i : Nat)
  | pipeline
  | empty
  deriving DecidableEq, Repr

/-- The dispatch of `main` (lines 360-371): look the first token up in the
built-in table; a hit runs `cmd_table[fundex].fun`; otherwise a nonempty token
sequence goes to `piped_exec`; an empty one is skipped. -/
def dispatch (tokens : List String) : LineAction :=
  let fundex := lookup tokens.head?
  if 0 ≤ fundex then .builtin fundex.toNat
  else
    match tokens.head? with
    | some _ => .pipeline
    | none => .empty

/-- Observable result of one iteration of the `while (fgets(...))` loop:
the dispatch decision, the prompt printed afterwards (lines 373-375, only when
interactive, with the incremented line number), the new line counter, and
whether `tokens_destroy` ran (line 378 — it always does). -/
structure StepResult where
  action : LineAction
  prompt : Option String
  lineNum : Nat
  tokensFreed : Bool
  deriving DecidableEq, Repr

/-- One iteration of `main`'s read loop on an already-tokenized line. -/
def mainStep (interactive : Bool) (lineNum : Nat) (tokens : List String) : StepResult :=
  { action := dispatch tokens,
    prompt := if interactive then some (toString (lineNum + 1) ++ ": ") else none,
    lineNum := lineNum + 1,
    tokensFreed := true }

/-- What the built-in at table index `i` prints to the shell's standard
output (lines 68-99).  `cmd_exit` calls `exit(0)` and prints nothing;
`cmd_cd` with no second token passes `NULL` to `chdir` (that call fails and
the failure line is printed through undefined `printf("%s", NULL)` behaviour,
left as the empty string here — no claim depends on it). -/
def builtinStdout (chdir : String → String → Option String) (getcwdRes : Option String)
    (strerror cwd : String) (i : Nat) (tokens : List String) : String :=
  match i with
  | 0 => cmd_help_output
  | 1 => ""
  | 2 =>
    match tokens.get? 1 with
    | some p => (cmd_cd chdir strerror cwd p).out
    | none => ""
  | 3 => (cmd_pwd getcwdRes strerror).1
  | _ => ""

/-- Effects of processing one input line: the text the shell process itself
prints to its standard output, and the files created/truncated by launched
pipeline stages. -/
structure LineEffects where
  shellStdout : String
  filesCreated : List String
  deriving DecidableEq, Repr

/-- Files created/truncated by the stages of a simulated pipeline. -/
def simCreatedFiles (s : Sim) : List String :=
  (s.stages.map (fun st => st.createdFiles)).flatten

/-- Processing of one line by `main` (lines 360-371): built-ins run in the
shell process and launch nothing; otherwise a nonempty line goes to
`piped_exec`, whose stages are the only place files are created. -/
def processLine (chdir : String → String → Option String) (getcwdRes : Option String)
    (strerror cwd : String) (fileExists : String → Bool)
    (tokens : List String) : LineEffects :=
  match dispatch tokens with
  | .builtin i =>
    { shellStdout := builtinStdout chdir getcwdRes strerror cwd i tokens, filesCreated := [] }
  | .pipeline =>
    { shellStdout := "", filesCreated := simCreatedFiles (piped_exec_sim fileExists tokens) }
  | .empty => { shellStdout := "", filesCreated := [] }

/-! ## Terminal-foreground model for `program_exec` (lines 176-265)

The parent branch of `program_exec` is embedded as the sequence of calls it
makes that concern terminal foreground ownership.  `runFg` folds the
`tcsetpgrp` calls over the current foreground owner; the model assumes the
`tcsetpgrp` system calls themselves succeed (their failure branches only
`perror` and continue).  `init_shell` (lines 110-140) has already made the
shell's group the foreground owner before the first pipeline, so traces are
run from `shellPgid`. -/

/-- Outcome of the `fork()` at line 178. -/
inductive ForkOutcome where
  | ok
  | fail
  deriving DecidableEq, Repr

/-- Foreground-relevant calls made by the parent branch of `program_exec`. -/
inductive FgOp where
  | sigIgnoreTTOU
  | setpgidChild (pid : Int)
  | setFg (pgid : Int)
  | waitChild
  | printStatus
  | sigDefaultTTOU
  | forkFailMsg
  deriving DecidableEq, Repr

/-- The parent branch of `program_exec` (lines 182-207): ignore `SIGTTOU`, put
the child in its own group, hand it the terminal, wait, print the status line,
hand the terminal back to `shell_pgid`, restore `SIGTTOU`.  A failed `fork`
(line 262) only prints a message. -/
def program_exec_fgOps (shellPgid : Int) : ForkOutcome × Int → List FgOp
  | (.ok, pid) =>
    [.sigIgnoreTTOU, .setpgidChild pid, .setFg pid, .waitChild, .printStatus,
     .setFg shellPgid, .sigDefaultTTOU]
  | (.fail, _) => [.forkFailMsg]

/-- The foreground-relevant calls of a whole `piped_exec` run: one
`program_exec` per stage, in order.  (`piped_exec` itself never touches the
terminal.) -/
def piped_exec_fgOps (shellPgid : Int) : List (ForkOutcome × Int) → List FgOp
  | [] => []
  | s :: rest => program_exec_fgOps shellPgid s ++ piped_exec_fgOps shellPgid rest

/-- Fold the foreground owner over a call sequence: only `tcsetpgrp`
(`setFg`) changes it. -/
def runFg (fg : Int) : List FgOp → Int
  | [] => fg
  | .setFg p :: rest => runFg p rest
  | .sigIgnoreTTOU :: rest => runFg fg rest
  | .setpgidChild _ :: rest => runFg fg rest
  | .waitChild :: rest => runFg fg rest
  | .printStatus :: rest => runFg fg rest
  | .sigDefaultTTOU :: rest => runFg fg rest
  | .forkFailMsg :: rest => runFg fg rest

lemma runFg_append (fg : Int) (a b : List FgOp) :
    runFg fg (a ++ b) = runFg (runFg fg a) b := by
  induction a generalizing fg with
  | nil => rfl
  | cons op rest ih => cases op <;> simp [runFg, ih]

lemma runFg_program_exec (shellPgid fg : Int) (s : ForkOutcome × Int) :
    runFg fg (program_exec_fgOps shellPgid s) = if s.1 = .fail then fg else shellPgid := by
  obtain ⟨f, pid⟩ := s
  cases f <;> simp [program_exec_fgOps, runFg]

/-! ## `strcpy` into the 128-byte redirect filename buffers (lines 63-65) -/

/-- Buffers `inbuf` and `outbuf` are `char[128]` (lines 64-65). -/
def redirectBufSize : Nat := 128

/-- The byte indices `strcpy` writes in the destination when the source string
occupies `srcLen` bytes: the bytes `0 .. srcLen - 1` and the terminating `NUL`
at index `srcLen`. -/
def strcpyWrites (srcLen : Nat) : List Nat := List.range (srcLen + 1)

/-- The copy stays inside a destination buffer of `bufSize` bytes. -/
def strcpyWithinBounds (bufSize srcLen : Nat) : Prop :=
  ∀ i ∈ strcpyWrites srcLen, i < bufSize

instance (bufSize srcLen : Nat) : Decidable (strcpyWithinBounds bufSize srcLen) := by
  unfold strcpyWithinBounds; infer_instance

/-! ## Supporting lemmas -/

lemma tryCands_total (execv : ExecOracle) (cmd : String) (cs : List String) :
    (∃ p, tryCands execv cmd cs = .execed p) ∨
      tryCands execv cmd cs = .exited 1 (cnfMsg cmd) := by
  induction cs with
  | nil => right; rfl
  | cons c rest ih =>
    simp only [tryCands]
    cases hc : execv c with
    | none => left; exact ⟨c, rfl⟩
    | some e =>
      cases e with
      | enoent => exact ih
      | other => right; rfl

lemma lookupFrom_nonneg_iff (l : List (String × String)) (i : Nat) (c : String) :
    0 ≤ lookupFrom i l (some c) ↔ c ∈ l.map Prod.fst := by
  induction l generalizing i with
  | nil => simp [lookupFrom]
  | cons e rest ih =>
    constructor
    · intro hle
      rw [List.map_cons, List.mem_cons]
      by_cases he : e.1 = c
      · exact Or.inl he.symm
      · right
        rw [← ih (i + 1)]
        have hstep : lookupFrom i (e :: rest) (some c) = lookupFrom (i + 1) rest (some c) := by
          simp only [lookupFrom, if_neg he]
        rwa [hstep] at hle
    · intro hm
      by_cases he : e.1 = c
      · have hstep : lookupFrom i (e :: rest) (some c) = Int.ofNat i := by
          simp only [lookupFrom, if_pos he]
        rw [hstep]
        exact Int.ofNat_nonneg i
      · have hstep : lookupFrom i (e :: rest) (some c) = lookupFrom (i + 1) rest (some c) := by
          simp only [lookupFrom, if_neg he]
        rw [hstep, ih (i + 1)]
        rw [List.map_cons, List.mem_cons] at hm
        rcases hm with h | h
        · exact absurd h.symm he
        · exact h

lemma runFg_piped (shellPgid : Int) (stages : List (ForkOutcome × Int)) :
    runFg shellPgid (piped_exec_fgOps shellPgid stages) = shellPgid := by
  induction stages with
  | nil => rfl
  | cons s rest ih =>
    rw [piped_exec_fgOps, runFg_append, runFg_program_exec]
    have h : (if s.1 = ForkOutcome.fail then shellPgid else shellPgid) = shellPgid := by
      split <;> rfl
    rw [h]
    exact ih

lemma lookupFd_redirectChain (t : FdTable) (nfd target : Int) (v : FdTarget)
    (h0 : target ≠ nfd) :
    lookupFd (closeFd (dup2fd (setFd t nfd v) nfd target) nfd) target = some v := by
  simp only [dup2fd, lookupFd_setFd_self]
  rw [lookupFd_closeFd_ne _ _ _ h0, lookupFd_setFd_self]

lemma lookupFd_redirectChain_ne (t : FdTable) (nfd target other : Int) (v : FdTarget)
    (hne1 : other ≠ nfd) (hne2 : other ≠ target) :
    lookupFd (closeFd (dup2fd (setFd t nfd v) nfd target) nfd) other = lookupFd t other := by
  simp only [dup2fd, lookupFd_setFd_self]
  rw [lookupFd_closeFd_ne _ _ _ hne1, lookupFd_setFd_ne _ _ _ _ hne2,
    lookupFd_setFd_ne _ _ _ _ hne1]

end BasicShell

namespace BasicShell

/-! ## Claim theorems -/

/-- C3: `exec_with_pathres` first attempts `argv[0]` literally; exactly
when that fails with `ENOENT` it walks the colon-separated PATH entries in
left-to-right order, attempting `dir ++ "/" ++ argv[0]`; it executes the first
candidate whose attempt succeeds provided all earlier candidates failed with
`ENOENT`; a non-`ENOENT` failure stops the walk; when no candidate is executed
it reports "command not found" and exits the process with status 1; on no path
does it return control (the outcome type has only "image replaced" and
"process exited"). -/
theorem exec_with_pathres_resolution (execv : ExecOracle) (PATH cmd : String) :
    (execv cmd = none → exec_with_pathres execv PATH cmd = .execed cmd) ∧
    (∀ p, exec_with_pathres execv PATH cmd = .execed p ↔
        ∃ pre post, candidates PATH cmd = pre ++ p :: post ∧
          (∀ q ∈ pre, execv q = some .enoent) ∧ execv p = none) ∧
    (exec_with_pathres execv PATH cmd = .exited 1 (cnfMsg cmd) ↔
        (∀ q ∈ candidates PATH cmd, execv q = some .enoent) ∨
        ∃ pre q post, candidates PATH cmd = pre ++ q :: post ∧
          (∀ r ∈ pre, execv r = some .enoent) ∧ execv q = some .other) ∧
    ((∃ p, exec_with_pathres execv PATH cmd = .execed p) ∨
        exec_with_pathres execv PATH cmd = .exited 1 (cnfMsg cmd)) := by
  have h := exec_with_pathres_eq_tryCands execv PATH cmd
  refine ⟨?_, ?_, ?_, ?_⟩
  · intro hc; simp [exec_with_pathres, hc]
  · intro p; rw [h]; exact tryCands_execed_iff execv cmd _ p
  · rw [h]; exact tryCands_exited_iff execv cmd _
  · rw [h]; exact tryCands_total execv cmd _

/-- C3 witness: with a concrete oracle whose literal attempt fails with
`ENOENT` and whose second PATH entry holds the program, resolution executes
`/usr/bin/prog` after skipping `/bin`. -/
theorem exec_with_pathres_resolution_witness :
    ((fun p => if p = "/usr/bin/prog" then none else some ExecErr.enoent) "prog"
        = some ExecErr.enoent) ∧
    exec_with_pathres (fun p => if p = "/usr/bin/prog" then none else some ExecErr.enoent)
        "/bin:/usr/bin" "prog" = .execed "/usr/bin/prog" := by
  refine ⟨by decide, ?_⟩
  exact ((exec_with_pathres_resolution
      (fun p => if p = "/usr/bin/prog" then none else some ExecErr.enoent)
      "/bin:/usr/bin" "prog").2.1 "/usr/bin/prog").mpr
    ⟨["prog", "/bin/prog"], [], by decide, by decide, by decide⟩

/-- C4 (counterexample): the claim says `help` is a registered command
name, but `cmd_table` registers only `?`, `exit`, `cd`, `pwd`; `lookup` on
`help` fails with `-1`, so a `help` input line is not dispatched as a
built-in. -/
theorem lookup_help_not_registered :
    lookup (some "help") = -1 ∧ "help" ∉ cmd_table.map Prod.fst ∧
    cmd_table.map Prod.fst = ["?", "exit", "cd", "pwd"] := by decide

/-- C4 (amended): `lookup` succeeds exactly when the first token is
character-for-character equal to a registered command name (no prefix or alias
matching, and a missing token never matches); `?` is registered, and its
handler `cmd_help` prints every registered command with its one-line
description; `help` is not a registered name. -/
theorem lookup_exact_match_registry :
    (∀ c : String, 0 ≤ lookup (some c) ↔ c ∈ cmd_table.map Prod.fst) ∧
    lookup none = -1 ∧
    lookup (some "?") = 0 ∧
    cmd_help_output =
      "? - show this help menu\nexit - exit the command shell\ncd - changes the working directory to the given directory\npwd - prints the current working directory to standard output\n" ∧
    "help" ∉ cmd_table.map Prod.fst :=
  ⟨fun c => lookupFrom_nonneg_iff cmd_table 0 c, by decide, by decide, by rfl, by decide⟩

/-- C5: after a pipeline run — whatever mix of successful and failed
(`fork`-failing) stages it had — the foreground owner is back to
`shell_pgid`, and at every stage boundary (each point where no child of the
pipeline is running, i.e. after any prefix of the stages) the foreground owner
is `shell_pgid`.  The trace starts from `shell_pgid` as established by
`init_shell`. -/
theorem foreground_restored_to_shell (shellPgid : Int)
    (stages : List (ForkOutcome × Int)) :
    runFg shellPgid (piped_exec_fgOps shellPgid stages) = shellPgid ∧
    ∀ k : Nat, runFg shellPgid (piped_exec_fgOps shellPgid (stages.take k)) = shellPgid :=
  ⟨runFg_piped shellPgid stages, fun k => runFg_piped shellPgid (stages.take k)⟩

/-- C7: `cmd_cd` moves to the target on `chdir` success; on failure it
prints the path with the OS error description, returns 0, leaves the working
directory unchanged, and a subsequent `cmd_pwd` prints the same directory as
before the failed `cd`. -/
theorem cd_failure_preserves_cwd (chdir : String → String → Option String)
    (strerror cwd path : String) :
    (∀ d, chdir cwd path = some d → cmd_cd chdir strerror cwd path = ⟨d, "", 1⟩) ∧
    (chdir cwd path = none →
      (cmd_cd chdir strerror cwd path).cwd = cwd ∧
      (cmd_cd chdir strerror cwd path).out = path ++ ": " ++ strerror ++ ".\n" ∧
      (cmd_pwd (some (cmd_cd chdir strerror cwd path).cwd) strerror).1
        = (cmd_pwd (some cwd) strerror).1) := by
  constructor
  · intro d hd; simp [cmd_cd, hd]
  · intro hn; simp [cmd_cd, hn, cmd_pwd]

/-- C7 witness: a `chdir` oracle that always fails, applied to a concrete
directory and target. -/
theorem cd_failure_preserves_cwd_witness :
    ((fun (_ : String) (_ : String) => (none : Option String)) "/a" "/nope"
        = (none : Option String)) ∧
    (cmd_cd (fun _ _ => none) "No such file or directory" "/a" "/nope").cwd = "/a" ∧
    (cmd_cd (fun _ _ => none) "No such file or directory" "/a" "/nope").out
      = "/nope" ++ ": " ++ "No such file or directory" ++ ".\n" ∧
    (cmd_pwd (some (cmd_cd (fun _ _ => none) "No such file or directory" "/a" "/nope").cwd)
        "No such file or directory").1
      = (cmd_pwd (some "/a") "No such file or directory").1 :=
  ⟨rfl, (cd_failure_preserves_cwd (fun _ _ => none)
    "No such file or directory" "/a" "/nope").2 rfl⟩

/-- C9: a line whose token sequence is empty (`token_at 0` is `none`) is
dispatched to no built-in and launches no pipeline or child process; the loop
prints the next prompt when interactive, increments the line number, frees the
tokens, and continues. -/
theorem empty_line_no_dispatch (interactive : Bool) (lineNum : Nat)
    (tokens : List String) (h : tokens.head? = none) :
    (mainStep interactive lineNum tokens).action = .empty ∧
    (mainStep interactive lineNum tokens).lineNum = lineNum + 1 ∧
    (mainStep interactive lineNum tokens).tokensFreed = true ∧
    (interactive = true →
      (mainStep interactive lineNum tokens).prompt = some (toString (lineNum + 1) ++ ": ")) ∧
    (∀ chdir getcwdRes strerror cwd fileExists,
      processLine chdir getcwdRes strerror cwd fileExists tokens
        = { shellStdout := "", filesCreated := [] }) := by
  have ht : tokens = [] := by
    cases tokens with
    | nil => rfl
    | cons a t => simp at h
  subst ht
  exact ⟨rfl, rfl, rfl, fun hi => by subst hi; rfl, fun _ _ _ _ _ => rfl⟩

/-- C9 witness: the empty token sequence at line 0, interactive. -/
theorem empty_line_no_dispatch_witness :
    (([] : List String).head? = none) ∧
    (mainStep true 0 []).action = .empty ∧
    (mainStep true 0 []).lineNum = 1 :=
  ⟨rfl, (empty_line_no_dispatch true 0 [] rfl).1,
    (empty_line_no_dispatch true 0 [] rfl).2.1⟩

/-- C10: the redirect filename copies are unbounded `strcpy`s into the
128-byte globals: the bytes written stay inside the buffer exactly when the
token is shorter than 128 bytes, and the scanner's `<`/`>` branches perform
the copy for every token — there is no length check that rejects a longer
one. -/
theorem redirect_filename_copy_unchecked :
    (∀ srcLen : Nat, strcpyWithinBounds redirectBufSize srcLen ↔ srcLen < 128) ∧
    (∀ (st : Sim) (tok : String), (handleInRedirect st tok).inbuf = tok ∧
        (handleInRedirect st tok).input_redirect = true) ∧
    (∀ (st : Sim) (tok : String), (handleOutRedirect st tok).outbuf = tok ∧
        (handleOutRedirect st tok).output_redirect = true) := by
  refine ⟨?_, fun st tok => ⟨rfl, rfl⟩, fun st tok => ⟨rfl, rfl⟩⟩
  intro n
  simp only [strcpyWithinBounds, strcpyWrites, List.mem_range, redirectBufSize]
  constructor
  · intro h
    have := h n (Nat.lt_succ_self n)
    omega
  · intro h i hi
    omega

/-- C1 (the code at the claim's failing input): in the simulated run of
`echo hi | wc -c`, the final stage (`wc -c`) reads fd 0 = the read end of
pipe 0 while the write end of pipe 0 is still open in the stage's own
descriptor table (the inherited fd 4, never closed after `dup2`) and in the
orchestrator's table while it blocks in `wait` (fd 4, closed only after the
final `program_exec` returns).  With the only upstream writer (`echo`) long
exited, the remaining open write descriptors make a read on fd 0 never return
end-of-file, so `wc` cannot print `3\n` and the pipeline hangs — the claimed
stdout is not produced. -/
theorem echo_wc_pipeline_write_end_left_open :
    echoWcSim.stages.map (fun st =>
        (st.argv, lookupFd st.table 0,
         countOpen st.table (.pipeWrite 0), countOpen st.parentTable (.pipeWrite 0)))
      = [(["echo", "hi"], some .stdin, 2, 1),
         (["wc", "-c"], some (.pipeRead 0), 1, 1)] := by decide

/-- C2 (the code at the claim's failing input): in the simulated run of
`echo hi | wc -c`, both children still hold the original pipe descriptors
fd 3 (read end) and fd 4 (write end) at `execv` time — the child branch of
`program_exec` contains no `close` after its `dup2`s — and the orchestrator
still holds the write end fd 4 when it starts the second stage, although
after the first child was started the remaining pipeline needed only the
read end.  The claimed close-exactly-once discipline does not hold on either
side. -/
theorem pipe_ends_not_closed_after_dup :
    (echoWcSim.stages.map (fun st => (lookupFd st.table 3, lookupFd st.table 4))
      = [(some (.pipeRead 0), some (.pipeWrite 0)),
         (some (.pipeRead 0), some (.pipeWrite 0))]) ∧
    lookupFd (echoWcSim.stages.getD 1 default).parentTable 4 = some (.pipeWrite 0) := by
  decide

/-- C6 (counterexample): for the stage of `echo x > f` the descriptor
`dup2`-ed onto stdout designates `f` opened write-only (the source calls
`creat`, which per POSIX opens `O_WRONLY | O_CREAT | O_TRUNC`; its
`(O_RDWR | O_CREAT | O_TRUNC)` argument is `creat`'s file-permission `mode`
parameter, not open flags), contradicting the claim's "opened for
read-write". -/
theorem output_redirect_opened_write_only :
    ((piped_exec_sim (fun _ => true) ["echo", "x", ">", "f"]).stages.map
        (fun st => lookupFd st.table 1))
      = [some (.file "f" .writeOnly true)] ∧
    AccessMode.writeOnly ≠ AccessMode.readWrite := by decide

/-- C6 (amended): an input redirect opens the named file read-only and,
when the file does not exist, the stage's child reports the error and exits
with failure before reaching `exec_with_pathres`; an output redirect
creates/truncates the named file and the stage's stdout descriptor designates
it opened write-only (not read-write). -/
theorem redirect_open_semantics (fileExists : String → Bool) (parent : FdTable)
    (nextFd pipein pipeout : Int) (inRe : Bool) (inbuf : String) (outRe : Bool)
    (outbuf : String) (argv : List String) (hfd : 1 < nextFd) :
    (inRe = true → fileExists inbuf = false →
      (childProcess fileExists parent nextFd pipein pipeout inRe inbuf outRe outbuf
        argv).execed = false ∧
      (childProcess fileExists parent nextFd pipein pipeout inRe inbuf outRe outbuf
        argv).createdFiles = []) ∧
    (inRe = true → fileExists inbuf = true →
      lookupFd (childProcess fileExists parent nextFd pipein pipeout inRe inbuf outRe outbuf
        argv).table 0 = some (.file inbuf .readOnly false)) ∧
    (outRe = true → (inRe = true → fileExists inbuf = true) →
      lookupFd (childProcess fileExists parent nextFd pipein pipeout inRe inbuf outRe outbuf
        argv).table 1 = some (.file outbuf .writeOnly true) ∧
      (childProcess fileExists parent nextFd pipein pipeout inRe inbuf outRe outbuf
        argv).createdFiles = [outbuf]) := by
  have h0 : (0 : Int) ≠ nextFd := by omega
  have h1 : (1 : Int) ≠ nextFd := by omega
  refine ⟨?_, ?_, ?_⟩
  · intro hin hfe
    subst hin
    simp [childProcess, hfe]
  · intro hin hfe
    subst hin
    simp only [childProcess, hfe, Bool.not_true, Bool.and_false, Bool.false_eq_true,
      if_false, if_true]
    cases outRe with
    | false =>
      simp only [Bool.false_eq_true, if_false]
      exact lookupFd_redirectChain _ nextFd 0 _ h0
    | true =>
      simp only [if_true]
      rw [lookupFd_redirectChain_ne _ nextFd 1 0 _ h0 (by omega)]
      exact lookupFd_redirectChain _ nextFd 0 _ h0
  · intro hout hfe
    subst hout
    cases hin : inRe with
    | false =>
      simp only [childProcess, hin, Bool.false_and, Bool.false_eq_true, if_false, if_true]
      exact ⟨lookupFd_redirectChain _ nextFd 1 _ h1, trivial⟩
    | true =>
      have hfe' := hfe hin
      simp only [childProcess, hin, hfe', Bool.not_true, Bool.and_false, Bool.true_and,
        Bool.false_eq_true, if_false, if_true]
      exact ⟨lookupFd_redirectChain _ nextFd 1 _ h1, trivial⟩

/-- C6 witness: a missing input file aborts the stage before exec; with
both redirects present and the input file existing, fd 0 designates the input
file read-only and fd 1 the output file write-only with truncation. -/
theorem redirect_open_semantics_witness :
    ((1 : Int) < 3) ∧
    (childProcess (fun _ => false) initialFdTable 3 (-1) (-1) true "nofile" false ""
      ["cat"]).execed = false ∧
    lookupFd (childProcess (fun _ => true) initialFdTable 3 (-1) (-1) true "in.txt" true
      "out.txt" ["prog"]).table 0 = some (.file "in.txt" .readOnly false) ∧
    lookupFd (childProcess (fun _ => true) initialFdTable 3 (-1) (-1) true "in.txt" true
      "out.txt" ["prog"]).table 1 = some (.file "out.txt" .writeOnly true) :=
  ⟨by decide,
   ((redirect_open_semantics (fun _ => false) initialFdTable 3 (-1) (-1) true "nofile"
      false "" ["cat"] (by decide)).1 rfl rfl).1,
   (redirect_open_semantics (fun _ => true) initialFdTable 3 (-1) (-1) true "in.txt"
      true "out.txt" ["prog"] (by decide)).2.1 rfl rfl,
   ((redirect_open_semantics (fun _ => true) initialFdTable 3 (-1) (-1) true "in.txt"
      true "out.txt" ["prog"] (by decide)).2.2 rfl (fun _ => rfl)).1⟩

/-- C8 (counterexample): processing `pwd > out.txt` (shell started in
`/start`) creates no file at all — the first token matches the registered
built-in `pwd`, so `main` runs `cmd_pwd` and never calls `piped_exec`; the
working directory is printed to the shell's own stdout instead. -/
theorem pwd_redirect_creates_no_file :
    processLine (fun _ _ => none) (some "/start") "err" "/start" (fun _ => true)
        ["pwd", ">", "out.txt"]
      = { shellStdout := "/start\n", filesCreated := [] } := by decide

/-- C8 (amended): for every working directory, the line `pwd > out.txt`
is dispatched to the `pwd` built-in (index 3) because built-in lookup on the
first token precedes any pipeline/redirection parsing; the shell prints the
current working directory plus a newline to its own stdout and no file is
created or truncated. -/
theorem pwd_redirect_dispatches_builtin (chdir : String → String → Option String)
    (strerror cwd : String) (fileExists : String → Bool) :
    dispatch ["pwd", ">", "out.txt"] = .builtin 3 ∧
    processLine chdir (some cwd) strerror cwd fileExists ["pwd", ">", "out.txt"]
      = { shellStdout := cwd ++ "\n", filesCreated := [] } :=
  ⟨rfl, rfl⟩

end BasicShell
